import Mathlib

/-!
Shallow embedding of the QRtistry QR rasterization engine
(src/types.rs, src/app.rs, src/qr/colors.rs, src/qr/drawing.rs,
src/qr/generator.rs, src/qr/images.rs, src/io.rs).

Machine integers (`u8`, `u32`, `usize`) are modelled by `ℕ`; the source
never exercises wrap-around in the quantities proved about, and where a
subtraction could underflow the theorems carry the hypotheses that rule
it out.  `f32` arithmetic is modelled exactly over `ℚ` (and over `ℝ`
where the source takes a square root): for every quantity evaluated by
the theorems below the `f32` computations of the source are exact, so
the rational/real model agrees with the binary behaviour.  The `f32`
literals `0.2` and `0.35` are modelled by `1/5` and `7/20`.

External collaborators (the `qrcode` encoder, the `image` crate's
decoding/resizing/blending, serde, the file system) are abstracted:
the QR matrix is an input, an external image is the pixel function it
presents after decoding/resizing, and the file system is a partial map
from paths to images.
-/

namespace QRtistry

/-- RGB color triple, one byte per channel (`[u8; 3]` in the source). -/
structure Rgb where
  r : ℕ
  g : ℕ
  b : ℕ
  deriving DecidableEq, Repr

/-- RGBA pixel (`image::Rgba<u8>` in the source). -/
structure Rgba where
  r : ℕ
  g : ℕ
  b : ℕ
  a : ℕ
  deriving DecidableEq, Repr

/-- `ErrorCorrectionLevel` from src/types.rs. -/
inductive ErrorCorrectionLevel
  | Low | Medium | Quartile | High
  deriving DecidableEq, Repr

/-- `GradientType` from src/types.rs. -/
inductive GradientType
  | Horizontal | Vertical | Diagonal | Radial
  deriving DecidableEq, Repr

/-- `ModuleStyle` from src/types.rs. -/
inductive ModuleStyle
  | Square | Circle | RoundedSquare | Dots
  deriving DecidableEq, Repr

/-- `EyeStyle` from src/types.rs. -/
inductive EyeStyle
  | Standard | Circle | RoundedSquare | Flower | Diamond
  deriving DecidableEq, Repr

/-- `TabSelection` from src/types.rs. -/
inductive TabSelection
  | Basic | Style | Advanced | Images
  deriving DecidableEq, Repr

/-- External image data (`image::DynamicImage`).  Decoding and Lanczos
resizing are operations of the external `image` crate; an image is
modelled by the pixel function it presents after those external
operations. -/
def DynImage : Type := ℕ → ℕ → Rgba

/-- `QrCodeApp` from src/app.rs, with every field of the source struct.
`f32` fields are modelled by `ℚ`, `PathBuf` by `String`, the egui
texture handle by `Unit`. -/
structure QrCodeApp where
  qr_text : String
  size : ℕ
  border : ℕ
  ec_level : ErrorCorrectionLevel
  fg_color : Rgb
  bg_color : Rgb
  use_gradient : Bool
  gradient_type : GradientType
  gradient_color : Rgb
  module_style : ModuleStyle
  use_rounded_corners : Bool
  corner_radius : ℚ
  eye_style : EyeStyle
  use_custom_eye_color : Bool
  eye_color : Rgb
  logo_path : Option String
  logo_image : Option DynImage
  logo_size : ℚ
  bg_image_path : Option String
  bg_image : Option DynImage
  bg_image_opacity : ℚ
  qr_opacity : ℚ
  selected_tab : TabSelection
  preview_texture : Option Unit
  status_message : String
  first_frame : Bool

/-- `Default for QrCodeApp` from src/app.rs (the literal default values;
`0.3` is the exact `3/10`, `0.2` the exact `1/5`). -/
def default_app : QrCodeApp where
  qr_text := "https://oliverbonhamcarter.com"
  size := 512
  border := 2
  ec_level := .Medium
  fg_color := ⟨0, 0, 0⟩
  bg_color := ⟨255, 255, 255⟩
  use_gradient := false
  gradient_type := .Horizontal
  gradient_color := ⟨100, 100, 255⟩
  module_style := .Square
  use_rounded_corners := false
  corner_radius := 3 / 10
  eye_style := .Standard
  use_custom_eye_color := false
  eye_color := ⟨255, 0, 0⟩
  logo_path := none
  logo_image := none
  logo_size := 1 / 5
  bg_image_path := none
  bg_image := none
  bg_image_opacity := 3 / 10
  qr_opacity := 1
  selected_tab := .Basic
  preview_texture := none
  status_message := "Ready to generate QR code"
  first_frame := true

/-- Rust saturating cast `v as u8` applied to an `f32` value modelled in `ℚ`
(negative values clamp to 0, values ≥ 256 clamp to 255, otherwise the
fractional part is truncated). -/
def f32_as_u8 (q : ℚ) : ℕ := min ⌊q⌋.toNat 255

/-- Rust saturating cast `v as u32` applied to an `f32` value modelled in `ℚ`. -/
def f32_as_u32 (q : ℚ) : ℕ := min ⌊q⌋.toNat (2 ^ 32 - 1)

/-- Rust saturating cast `v as u8` for values modelled in `ℝ` (used where the
source value was produced with a square root). -/
noncomputable def f32_as_u8_real (x : ℝ) : ℕ := min ⌊x⌋.toNat 255

/-- `lerp` from src/qr/colors.rs:
`(a as f32 * (1.0 - t) + b as f32 * t) as u8`. -/
noncomputable def lerp (a b : ℕ) (t : ℝ) : ℕ :=
  f32_as_u8_real ((a : ℝ) * (1 - t) + (b : ℝ) * t)

/-- `interpolate_rgb` from src/qr/colors.rs: per-channel `lerp`, alpha 255. -/
noncomputable def interpolate_rgb (color1 color2 : Rgb) (t : ℝ) : Rgba :=
  ⟨lerp color1.r color2.r t, lerp color1.g color2.g t, lerp color1.b color2.b t, 255⟩

/-- The interpolation factor `t` computed by `get_gradient_color`
(src/qr/colors.rs lines 37-60), by gradient type. -/
noncomputable def gradient_t (g : GradientType) (x y width height : ℕ) : ℝ :=
  match g with
  | .Horizontal => (x : ℝ) / (width : ℝ)
  | .Vertical => (y : ℝ) / (height : ℝ)
  | .Diagonal => ((x : ℝ) + (y : ℝ)) / ((width : ℝ) + (height : ℝ))
  | .Radial =>
      let cx : ℝ := (width : ℝ) / 2
      let cy : ℝ := (height : ℝ) / 2
      let dx : ℝ := (x : ℝ) - cx
      let dy : ℝ := (y : ℝ) - cy
      let dist : ℝ := Real.sqrt (dx * dx + dy * dy)
      let max_dist : ℝ := Real.sqrt (cx * cx + cy * cy)
      min (dist / max_dist) 1

/-- `get_gradient_color` from src/qr/colors.rs. -/
noncomputable def get_gradient_color (x y width height : ℕ) (app : QrCodeApp) : Rgba :=
  interpolate_rgb app.fg_color app.gradient_color (gradient_t app.gradient_type x y width height)

/-- One `put_pixel` call of the drawing code: target coordinate and the
color written there. -/
abbrev Write := (ℕ × ℕ) × Rgba

/-- `draw_square` from src/qr/drawing.rs, as the row-major list of
`put_pixel` calls it performs on a `w × h` buffer. -/
def draw_square (w h : ℕ) (x y size : ℕ) (color : Rgba) : List Write :=
  (List.range size).flatMap fun dy =>
    (List.range size).filterMap fun dx =>
      if x + dx < w ∧ y + dy < h then some ((x + dx, y + dy), color) else none

/-- `draw_circle` from src/qr/drawing.rs.  The `f32` test
`dist ≤ radius` with `radius = size/2` and center `(x + size/2, y + size/2)`
(both sides nonnegative, exact in the source's value range) is modelled by
squaring and scaling by 4:
`(2·dx − size)² + (2·dy − size)² ≤ size²` over `ℤ`. -/
def draw_circle (w h : ℕ) (x y size : ℕ) (color : Rgba) : List Write :=
  (List.range size).flatMap fun dy =>
    (List.range size).filterMap fun dx =>
      let px := x + dx
      let py := y + dy
      if (2 * (dx : ℤ) - size) ^ 2 + (2 * (dy : ℤ) - size) ^ 2 ≤ (size : ℤ) ^ 2 ∧
         px < w ∧ py < h then
        some ((px, py), color)
      else none

/-- The corner radius computed by `draw_rounded_square`
(src/qr/drawing.rs lines 194-198): the user fraction when
`use_rounded_corners` is set, else the fixed `0.2` default. -/
def rounded_square_radius (app : QrCodeApp) (size : ℕ) : ℕ :=
  if app.use_rounded_corners then f32_as_u32 ((size : ℚ) * app.corner_radius)
  else f32_as_u32 ((size : ℚ) * (1 / 5))

/-- `draw_rounded_square` from src/qr/drawing.rs.  The `f32` corner test
`dist ≤ radius` (corner centers and radius are integers, so it is exact)
is modelled squared over `ℤ`. -/
def draw_rounded_square (w h : ℕ) (x y size : ℕ) (color : Rgba) (app : QrCodeApp) : List Write :=
  let radius := rounded_square_radius app size
  (List.range size).flatMap fun dy =>
    (List.range size).filterMap fun dx =>
      let px := x + dx
      let py := y + dy
      if (dx < radius ∧ dy < radius) ∨ (size - radius ≤ dx ∧ dy < radius) ∨
         (dx < radius ∧ size - radius ≤ dy) ∨ (size - radius ≤ dx ∧ size - radius ≤ dy) then
        let corner_x := if dx < radius then radius else size - radius
        let corner_y := if dy < radius then radius else size - radius
        if ((dx : ℤ) - (corner_x : ℤ)) ^ 2 + ((dy : ℤ) - (corner_y : ℤ)) ^ 2 ≤ (radius : ℤ) ^ 2 ∧
           px < w ∧ py < h then
          some ((px, py), color)
        else none
      else if px < w ∧ py < h then some ((px, py), color)
      else none

/-- `draw_dot` from src/qr/drawing.rs: the `f32` test `dist ≤ 0.35 · size`
with center `(x + size/2, y + size/2)` (`0.35` is the exact `7/20`),
modelled by squaring and scaling by 400:
`(20·dx − 10·size)² + (20·dy − 10·size)² ≤ 49·size²` over `ℤ`. -/
def draw_dot (w h : ℕ) (x y size : ℕ) (color : Rgba) : List Write :=
  (List.range size).flatMap fun dy =>
    (List.range size).filterMap fun dx =>
      let px := x + dx
      let py := y + dy
      if (20 * (dx : ℤ) - 10 * size) ^ 2 + (20 * (dy : ℤ) - 10 * size) ^ 2 ≤
           49 * (size : ℤ) ^ 2 ∧ px < w ∧ py < h then
        some ((px, py), color)
      else none

/-- `draw_eye_circle` from src/qr/drawing.rs. -/
def draw_eye_circle (w h px py size : ℕ) (color : Rgba) (rel_x rel_y : ℕ) : List Write :=
  if (rel_x ≤ 1 ∨ 5 ≤ rel_x ∨ rel_y ≤ 1 ∨ 5 ≤ rel_y) ∧ ¬(rel_x = 3 ∧ rel_y = 3) then
    draw_circle w h px py size color
  else if rel_x = 3 ∧ rel_y = 3 then
    draw_circle w h px py size color
  else []

/-- `draw_eye_rounded` from src/qr/drawing.rs. -/
def draw_eye_rounded (w h px py size : ℕ) (color : Rgba) (app : QrCodeApp) : List Write :=
  draw_rounded_square w h px py size color app

/-- `draw_eye_flower` from src/qr/drawing.rs.  The rounded-square branch
constructs `QrCodeApp::default()` and draws with it. -/
def draw_eye_flower (w h px py size : ℕ) (color : Rgba) (rel_x rel_y : ℕ) : List Write :=
  if (rel_x = 0 ∨ rel_x = 6 ∨ rel_y = 0 ∨ rel_y = 6) ∨
     ((2 ≤ rel_x ∧ rel_x ≤ 4) ∧ (2 ≤ rel_y ∧ rel_y ≤ 4)) then
    if (rel_x + rel_y) % 2 = 0 then draw_circle w h px py size color
    else draw_rounded_square w h px py size color default_app
  else []

/-- `draw_eye_diamond` from src/qr/drawing.rs. -/
def draw_eye_diamond (w h px py size : ℕ) (color : Rgba) (rel_x rel_y : ℕ) : List Write :=
  let dist := ((rel_x : ℤ) - 3).natAbs + ((rel_y : ℤ) - 3).natAbs
  if dist = 3 ∨ dist = 1 then draw_square w h px py size color else []

/-- `draw_data_module` from src/qr/drawing.rs (the `_x`, `_y` matrix
coordinates of the source signature are unused there and omitted). -/
noncomputable def draw_data_module (w h : ℕ) (app : QrCodeApp) (px py size : ℕ) : List Write :=
  let color := if app.use_gradient then get_gradient_color px py w h app
               else ⟨app.fg_color.r, app.fg_color.g, app.fg_color.b, 255⟩
  match app.module_style with
  | .Square => draw_square w h px py size color
  | .Circle => draw_circle w h px py size color
  | .RoundedSquare => draw_rounded_square w h px py size color app
  | .Dots => draw_dot w h px py size color

/-- `draw_eye_module` from src/qr/drawing.rs: resolve the eye color,
find the first finder block containing `(x, y)` (the source's
for-loop with `break`), and dispatch on the eye style. -/
noncomputable def draw_eye_module (w h : ℕ) (app : QrCodeApp) (x y px py size : ℕ)
    (eyes : List (ℕ × ℕ)) : List Write :=
  let color :=
    if app.use_custom_eye_color then
      (⟨app.eye_color.r, app.eye_color.g, app.eye_color.b, 255⟩ : Rgba)
    else if app.use_gradient then get_gradient_color px py w h app
    else ⟨app.fg_color.r, app.fg_color.g, app.fg_color.b, 255⟩
  match eyes.find? (fun p => decide (p.1 ≤ x ∧ x < p.1 + 7 ∧ p.2 ≤ y ∧ y < p.2 + 7)) with
  | some (ex, ey) =>
      let rel_x := x - ex
      let rel_y := y - ey
      match app.eye_style with
      | .Standard => draw_square w h px py size color
      | .Circle => draw_eye_circle w h px py size color rel_x rel_y
      | .RoundedSquare => draw_eye_rounded w h px py size color app
      | .Flower => draw_eye_flower w h px py size color rel_x rel_y
      | .Diamond => draw_eye_diamond w h px py size color rel_x rel_y
  | none => []

/-- The module pixel size computed by `generate_qr_image`
(src/qr/generator.rs line 47):
`(app.size - 2 * app.border * (app.size / qr_width)) / qr_width`,
all in `u32` arithmetic (here `ℕ`, with truncated subtraction). -/
def qr_module_size (size border qr_width : ℕ) : ℕ :=
  (size - 2 * border * (size / qr_width)) / qr_width

/-- `actual_qr_size` from src/qr/generator.rs line 48. -/
def qr_actual_size (size border qr_width : ℕ) : ℕ :=
  qr_module_size size border qr_width * qr_width

/-- `total_size` from src/qr/generator.rs line 49: the side length of the
allocated canvas. -/
def qr_total_size (size border qr_width : ℕ) : ℕ :=
  qr_actual_size size border qr_width + 2 * border * qr_module_size size border qr_width

/-- `offset` from src/qr/generator.rs line 69: the pixel offset of the QR
region inside the border. -/
def qr_border_offset (size border qr_width : ℕ) : ℕ :=
  border * qr_module_size size border qr_width

/-- An RGBA image buffer (`image::RgbaImage`): dimensions plus the pixel
at each coordinate. -/
structure Image where
  width : ℕ
  height : ℕ
  pix : ℕ → ℕ → Rgba

/-- `image.put_pixel(x, y, c)`. -/
def put_pixel (img : Image) (x y : ℕ) (c : Rgba) : Image :=
  { img with pix := fun i j => if i = x ∧ j = y then c else img.pix i j }

/-- Perform a list of `put_pixel` calls in order. -/
def apply_writes (img : Image) (ws : List Write) : Image :=
  ws.foldl (fun im wr => put_pixel im wr.1.1 wr.1.2 wr.2) img

/-- `eye_positions` from src/qr/generator.rs lines 62-66. -/
def eye_positions (qr_width : ℕ) : List (ℕ × ℕ) :=
  [(0, 0), (qr_width - 7, 0), (0, qr_width - 7)]

/-- The module-drawing loop of `generate_qr_image`
(src/qr/generator.rs lines 71-100) as the list of `put_pixel` calls it
performs: row-major over the matrix, dark cells only, dispatching to
`draw_eye_module` inside a finder block and `draw_data_module` outside.
The matrix is the external encoder's output, indexed `y * qr_width + x`
with `true` for a dark cell. -/
noncomputable def module_writes (app : QrCodeApp) (matrix : ℕ → Bool) (qr_width : ℕ)
    (module_size offset w h : ℕ) : List Write :=
  (List.range qr_width).flatMap fun y =>
    (List.range qr_width).flatMap fun x =>
      if matrix (y * qr_width + x) then
        let px := offset + x * module_size
        let py := offset + y * module_size
        if (eye_positions qr_width).any
            (fun p => decide (p.1 ≤ x ∧ x < p.1 + 7 ∧ p.2 ≤ y ∧ y < p.2 + 7)) then
          draw_eye_module w h app x y px py module_size (eye_positions qr_width)
        else
          draw_data_module w h app px py module_size
      else []

/-- `create_solid_background` from src/qr/generator.rs: a `size × size`
buffer filled with the background color, alpha 255. -/
def create_solid_background (size : ℕ) (bg_color : Rgb) : Image :=
  ⟨size, size, fun _ _ => ⟨bg_color.r, bg_color.g, bg_color.b, 255⟩⟩

/-- Alpha compositing of one pixel over another.  Modelled from the spec:
`imageops::overlay` of the external `image` crate, which the spec
describes as standard alpha blending of the upper pixel over the lower
one ("alpha-composite it over a solid fill", "standard alpha blending"). -/
def alpha_over (under over : Rgba) : Rgba :=
  let blend := fun (cu co : ℕ) => (co * over.a + cu * (255 - over.a)) / 255
  ⟨blend under.r over.r, blend under.g over.g, blend under.b over.b,
    over.a + under.a * (255 - over.a) / 255⟩

/-- `create_background_with_image` from src/qr/generator.rs: the external
resize of the background image to `size × size` is abstracted by the
`DynImage` pixel function; the alpha scaling by `bg_image_opacity`
(lines 153-157) and the overlay over the solid background color follow
the source. -/
def create_background_with_image (bg_img : DynImage) (size : ℕ) (app : QrCodeApp) : Image :=
  let scaled : ℕ → ℕ → Rgba := fun i j =>
    let p := bg_img i j
    if app.bg_image_opacity < 1 then ⟨p.r, p.g, p.b, f32_as_u8 ((p.a : ℚ) * app.bg_image_opacity)⟩
    else p
  ⟨size, size, fun i j =>
    alpha_over ⟨app.bg_color.r, app.bg_color.g, app.bg_color.b, 255⟩ (scaled i j)⟩

/-- `apply_qr_opacity` from src/qr/generator.rs lines 178-185: for every
pixel whose RGB differs from the background color, the alpha channel is
scaled by `opacity` (`(pixel[3] as f32 * opacity) as u8`); pixels whose
RGB equals the background color are untouched. -/
def apply_qr_opacity (img : Image) (opacity : ℚ) (bg_color : Rgb) : Image :=
  { img with pix := fun i j =>
      let p := img.pix i j
      if p.r ≠ bg_color.r ∨ p.g ≠ bg_color.g ∨ p.b ≠ bg_color.b then
        ⟨p.r, p.g, p.b, f32_as_u8 ((p.a : ℚ) * opacity)⟩
      else p }

/-- Step 7 of `generate_qr_image` (src/qr/generator.rs lines 110-113):
`apply_qr_opacity` runs only when `qr_opacity < 1.0`. -/
def opacity_pass (img : Image) (opacity : ℚ) (bg_color : Rgb) : Image :=
  if opacity < 1 then apply_qr_opacity img opacity bg_color else img

/-- Compositing of the resized logo over the QR image at a given anchor.
Modelled from the spec: the Lanczos resize of the logo to
`logo_size × logo_size` is external (the `DynImage` pixel function
stands for its result) and the overlay is the external crate's standard
alpha blending, applied inside the logo rectangle. -/
def overlay_image (img : Image) (logo : DynImage) (logo_size cx cy : ℕ) : Image :=
  { img with pix := fun i j =>
      if cx ≤ i ∧ i < cx + logo_size ∧ cy ≤ j ∧ j < cy + logo_size then
        alpha_over (img.pix i j) (logo (i - cx) (j - cy))
      else img.pix i j }

/-- `apply_logo_overlay` from src/qr/images.rs: logo size computation,
the two validation failures, the centered anchor, and the overlay. -/
def apply_logo_overlay (img : Image) (logo : DynImage) (qr_width module_size offset : ℕ)
    (logo_size_fraction : ℚ) : Except String Image :=
  let qr_size := qr_width * module_size
  let logo_size := f32_as_u32 ((qr_size : ℚ) * logo_size_fraction)
  if logo_size = 0 then .error "Logo size too small to render"
  else if qr_size < logo_size then .error "Logo size exceeds QR code dimensions"
  else
    let center_x := offset + (qr_size - logo_size) / 2
    let center_y := offset + (qr_size - logo_size) / 2
    .ok (overlay_image img logo logo_size center_x center_y)

/-- `generate_qr_image` from src/qr/generator.rs.  The external `qrcode`
encoder (step 1) is abstracted: the dark/light matrix and its width are
inputs, so the encoder's own failure mode is out of scope.  Steps 2-7
follow the source: dimension computation, base canvas, module drawing,
optional logo overlay (which can fail), and the opacity pass. -/
noncomputable def generate_qr_image (app : QrCodeApp) (matrix : ℕ → Bool) (qr_width : ℕ) :
    Except String Image :=
  let module_size := qr_module_size app.size app.border qr_width
  let total_size := qr_total_size app.size app.border qr_width
  let image : Image :=
    match app.bg_image with
    | some bg_img => create_background_with_image bg_img total_size app
    | none => create_solid_background total_size app.bg_color
  let offset := app.border * module_size
  let drawn :=
    apply_writes image (module_writes app matrix qr_width module_size offset total_size total_size)
  match app.logo_image with
  | some logo_img =>
      match apply_logo_overlay drawn logo_img qr_width module_size offset app.logo_size with
      | .ok with_logo => .ok (opacity_pass with_logo app.qr_opacity app.bg_color)
      | .error e => .error e
  | none => .ok (opacity_pass drawn app.qr_opacity app.bg_color)

/-- The preset record serialized by `save_preset` (src/io.rs) via serde:
exactly the fields of `QrCodeApp` not annotated `#[serde(skip)]` in
src/app.rs.  Skipped (and hence absent here): `logo_path`, `logo_image`,
`bg_image_path`, `bg_image`, `preview_texture`, `status_message`,
`first_frame`. -/
structure Preset where
  qr_text : String
  size : ℕ
  border : ℕ
  ec_level : ErrorCorrectionLevel
  fg_color : Rgb
  bg_color : Rgb
  use_gradient : Bool
  gradient_type : GradientType
  gradient_color : Rgb
  module_style : ModuleStyle
  use_rounded_corners : Bool
  corner_radius : ℚ
  eye_style : EyeStyle
  use_custom_eye_color : Bool
  eye_color : Rgb
  logo_size : ℚ
  bg_image_opacity : ℚ
  qr_opacity : ℚ
  selected_tab : TabSelection

/-- Serde serialization of `QrCodeApp` (src/app.rs): project onto the
non-skipped fields. -/
def serialize_app (app : QrCodeApp) : Preset :=
  ⟨app.qr_text, app.size, app.border, app.ec_level, app.fg_color, app.bg_color,
   app.use_gradient, app.gradient_type, app.gradient_color, app.module_style,
   app.use_rounded_corners, app.corner_radius, app.eye_style, app.use_custom_eye_color,
   app.eye_color, app.logo_size, app.bg_image_opacity, app.qr_opacity, app.selected_tab⟩

/-- Serde deserialization of `QrCodeApp` (src/app.rs): every
`#[serde(skip)]` field is filled with its type's `Default` value
(`None` for the options, the empty string, `false`). -/
def deserialize_app (p : Preset) : QrCodeApp where
  qr_text := p.qr_text
  size := p.size
  border := p.border
  ec_level := p.ec_level
  fg_color := p.fg_color
  bg_color := p.bg_color
  use_gradient := p.use_gradient
  gradient_type := p.gradient_type
  gradient_color := p.gradient_color
  module_style := p.module_style
  use_rounded_corners := p.use_rounded_corners
  corner_radius := p.corner_radius
  eye_style := p.eye_style
  use_custom_eye_color := p.use_custom_eye_color
  eye_color := p.eye_color
  logo_path := none
  logo_image := none
  logo_size := p.logo_size
  bg_image_path := none
  bg_image := none
  bg_image_opacity := p.bg_image_opacity
  qr_opacity := p.qr_opacity
  selected_tab := p.selected_tab
  preview_texture := none
  status_message := ""
  first_frame := false

/-- `load_preset` from src/io.rs lines 125-151, after a successful parse
of the preset record: reset the runtime-only fields, keep the current
tab, and attempt to re-open the image paths through the file system
(`fs`, the external `image::open`), clearing a path whose file cannot
be opened. -/
def load_preset (p : Preset) (fs : String → Option DynImage) (current_tab : TabSelection) :
    QrCodeApp :=
  let loaded := deserialize_app p
  let loaded := { loaded with preview_texture := none,
                              status_message := "Preset loaded",
                              selected_tab := current_tab }
  let loaded :=
    match loaded.logo_path with
    | some lp =>
        match fs lp with
        | some img => { loaded with logo_image := some img }
        | none => { loaded with logo_path := none }
    | none => loaded
  match loaded.bg_image_path with
  | some bp =>
      match fs bp with
      | some img => { loaded with bg_image := some img }
      | none => { loaded with bg_image_path := none }
  | none => loaded

/-! ## Claim C2: preset persistence of image paths -/

/-- Concrete 1×1 external image used in concrete instances. -/
def test_dyn_image : DynImage := fun _ _ => ⟨1, 2, 3, 255⟩

/-- A configuration with a logo path and a background-image path set. -/
def c2_app : QrCodeApp :=
  { default_app with
      logo_path := some "logo.png"
      logo_image := some test_dyn_image
      bg_image_path := some "bg.png"
      bg_image := some test_dyn_image }

/-- A file system on which every path opens successfully. -/
def c2_fs : String → Option DynImage := fun _ => some test_dyn_image

/-- C2 counterexample: saving a configuration whose logo path is
`"logo.png"` and whose background path is `"bg.png"` and loading the
preset back — on a file system where both files open successfully —
yields `None` for both paths and both images: the paths were not
included in the serialized record (they are `#[serde(skip)]`), so the
loader's re-open step never fires. -/
theorem c2_counterexample :
    c2_app.logo_path = some "logo.png" ∧ c2_app.bg_image_path = some "bg.png" ∧
    c2_fs "logo.png" = some test_dyn_image ∧
    (load_preset (serialize_app c2_app) c2_fs .Basic).logo_path = none ∧
    (load_preset (serialize_app c2_app) c2_fs .Basic).logo_image = none ∧
    (load_preset (serialize_app c2_app) c2_fs .Basic).bg_image_path = none ∧
    (load_preset (serialize_app c2_app) c2_fs .Basic).bg_image = none :=
  ⟨rfl, rfl, rfl, rfl, rfl, rfl, rfl⟩

/-- C2 (amended): the logo and background-image file paths are excluded
from the serialized preset record (they carry `#[serde(skip)]`, like the
image binary data and the display texture), so whatever configuration is
saved and however the file system behaves at load time, the loaded
configuration has no logo path, no background path and no loaded
images — the loader's re-open branch is dead code. -/
theorem c2_paths_not_persisted (app : QrCodeApp) (fs : String → Option DynImage)
    (tab : TabSelection) :
    (load_preset (serialize_app app) fs tab).logo_path = none ∧
    (load_preset (serialize_app app) fs tab).logo_image = none ∧
    (load_preset (serialize_app app) fs tab).bg_image_path = none ∧
    (load_preset (serialize_app app) fs tab).bg_image = none :=
  ⟨rfl, rfl, rfl, rfl⟩

/-! ## Claim C5: logo overlay sizing and placement -/

/-- C5: `apply_logo_overlay` computes
`logo_px_size = floor(qr_pixel_size · size_fraction)` with
`qr_pixel_size = qr_width · module_size` (border excluded), fails
exactly when the logo size is 0 or exceeds the QR region, otherwise
composites the logo at the centered anchor
`offset + (qr_pixel_size − logo_px_size) / 2` on each axis; at
`qr_width = 25`, `module_size = 10`, `fraction = 0.2`, `offset = 20`
the logo size is 50 and the anchor is `(120, 120)`. -/
theorem c5_logo_sizing (img : Image) (logo : DynImage) (qw ms off : ℕ) (frac : ℚ) :
    ((∃ e, apply_logo_overlay img logo qw ms off frac = .error e) ↔
      f32_as_u32 ((qw : ℚ) * (ms : ℚ) * frac) = 0 ∨
        qw * ms < f32_as_u32 ((qw : ℚ) * (ms : ℚ) * frac)) ∧
    (∀ ls, ls = f32_as_u32 ((qw : ℚ) * (ms : ℚ) * frac) → ls ≠ 0 → ¬ qw * ms < ls →
      apply_logo_overlay img logo qw ms off frac =
        .ok (overlay_image img logo ls (off + (qw * ms - ls) / 2) (off + (qw * ms - ls) / 2))) ∧
    f32_as_u32 ((25 : ℚ) * (10 : ℚ) * (1 / 5)) = 50 ∧
    apply_logo_overlay img logo 25 10 20 (1 / 5) = .ok (overlay_image img logo 50 120 120) := by
  refine ⟨?_, ?_, by norm_num [f32_as_u32]; decide, ?_⟩
  · unfold apply_logo_overlay
    by_cases h0 : f32_as_u32 ((qw : ℚ) * (ms : ℚ) * frac) = 0
    · simp [h0]
    · by_cases h1 : qw * ms < f32_as_u32 ((qw : ℚ) * (ms : ℚ) * frac) <;> simp [h0, h1]
  · intro ls hls h0 h1
    subst hls
    unfold apply_logo_overlay
    simp [h0, h1]
  · unfold apply_logo_overlay
    norm_num [f32_as_u32]
    rw [show Int.toNat 50 = 50 from rfl]

/-- Concrete image for the C5 witness. -/
def c5_img : Image := ⟨300, 300, fun _ _ => ⟨255, 255, 255, 255⟩⟩

/-- Witness for C5: the sizing theorem instantiated at the concrete
configuration of the claim (`qr_width = 25`, `module_size = 10`,
`fraction = 0.2`, `offset = 20`), discharging the hypotheses of its
success branch there. -/
theorem c5_logo_sizing_witness :
    apply_logo_overlay c5_img test_dyn_image 25 10 20 (1 / 5) =
      .ok (overlay_image c5_img test_dyn_image 50 120 120) :=
  (c5_logo_sizing c5_img test_dyn_image 25 10 20 (1 / 5)).2.1 50
    (by norm_num [f32_as_u32]; decide) (by norm_num) (by norm_num)

/-! ## Claim C6: overall-opacity pass -/

/-- C6: the opacity pass runs only when `overall_opacity < 1` (at
opacity 1 the image is untouched); it multiplies the alpha of exactly
the pixels whose RGB differs from the background color (truncated:
alpha 255 at opacity `0.5` becomes 127), and leaves pixels whose RGB
equals the background color unchanged. -/
theorem c6_opacity (op : ℚ) (bg : Rgb) (img : Image) (i j : ℕ) :
    ((img.pix i j).r = bg.r → (img.pix i j).g = bg.g → (img.pix i j).b = bg.b →
      (apply_qr_opacity img op bg).pix i j = img.pix i j) ∧
    (((img.pix i j).r ≠ bg.r ∨ (img.pix i j).g ≠ bg.g ∨ (img.pix i j).b ≠ bg.b) →
      (apply_qr_opacity img op bg).pix i j =
        ⟨(img.pix i j).r, (img.pix i j).g, (img.pix i j).b,
          f32_as_u8 (((img.pix i j).a : ℚ) * op)⟩) ∧
    opacity_pass img 1 bg = img ∧
    f32_as_u8 ((255 : ℚ) * (1 / 2)) = 127 := by
  refine ⟨?_, ?_, ?_, by norm_num [f32_as_u8]; decide⟩
  · intro hr hg hb
    simp [apply_qr_opacity, hr, hg, hb]
  · intro hne
    simp only [apply_qr_opacity]
    rw [if_pos hne]
  · simp [opacity_pass]

/-- Concrete image for the C6 witness: one black fully opaque pixel. -/
def c6_img : Image := ⟨1, 1, fun _ _ => ⟨0, 0, 0, 255⟩⟩

/-- Witness for C6: on a white background, a black pixel of alpha 255
gets alpha 127 at opacity `0.5`, by the opacity theorem at that concrete
input. -/
theorem c6_opacity_witness :
    (apply_qr_opacity c6_img (1 / 2) ⟨255, 255, 255⟩).pix 0 0 = ⟨0, 0, 0, 127⟩ := by
  have h := (c6_opacity (1 / 2) ⟨255, 255, 255⟩ c6_img 0 0).2.1 (by decide)
  rw [h]
  norm_num [c6_img, f32_as_u8]; decide

/-! ## Claim C4: gradient factor extremes and interpolation -/

/-- C4: for every gradient mode the factor `t` is exactly 0 at one
extreme position and 1 at the opposite extreme (horizontal: `x = 0` vs
`x = width`; vertical: `y = 0` vs `y = height`; diagonal: `(0,0)` vs
`(width, height)`; radial: the center vs the `(0,0)` corner); the
gradient color is the per-channel interpolation
`fg·(1−t) + end·t` truncated to integer with alpha fixed at 255, and at
`t = 0.5` between black and white every channel is exactly 127. -/
theorem c4_gradient_extremes (w h x y : ℕ) (hw : 0 < w) (hh : 0 < h) :
    gradient_t .Horizontal 0 y w h = 0 ∧
    gradient_t .Horizontal w y w h = 1 ∧
    gradient_t .Vertical x 0 w h = 0 ∧
    gradient_t .Vertical x h w h = 1 ∧
    gradient_t .Diagonal 0 0 w h = 0 ∧
    gradient_t .Diagonal w h w h = 1 ∧
    (2 ∣ w → 2 ∣ h → gradient_t .Radial (w / 2) (h / 2) w h = 0) ∧
    gradient_t .Radial 0 0 w h = 1 ∧
    (∀ app : QrCodeApp, get_gradient_color x y w h app =
      interpolate_rgb app.fg_color app.gradient_color (gradient_t app.gradient_type x y w h)) ∧
    (∀ c1 c2 : Rgb, ∀ t : ℝ, interpolate_rgb c1 c2 t =
      ⟨lerp c1.r c2.r t, lerp c1.g c2.g t, lerp c1.b c2.b t, 255⟩) ∧
    interpolate_rgb ⟨0, 0, 0⟩ ⟨255, 255, 255⟩ (1 / 2) = ⟨127, 127, 127, 255⟩ := by
  have hw' : (w : ℝ) ≠ 0 := Nat.cast_ne_zero.2 hw.ne'
  have hh' : (h : ℝ) ≠ 0 := Nat.cast_ne_zero.2 hh.ne'
  refine ⟨?_, ?_, ?_, ?_, ?_, ?_, ?_, ?_, fun _ => rfl, fun _ _ _ => rfl, ?_⟩
  · simp [gradient_t]
  · simp [gradient_t, div_self hw']
  · simp [gradient_t]
  · simp [gradient_t, div_self hh']
  · simp [gradient_t]
  · have hwh : (w : ℝ) + (h : ℝ) ≠ 0 := by
      have : (0 : ℝ) < (w : ℝ) + (h : ℝ) :=
        add_pos_of_pos_of_nonneg (Nat.cast_pos.2 hw) (Nat.cast_nonneg h)
      exact this.ne'
    simp [gradient_t, div_self hwh]
  · rintro ⟨k, rfl⟩ ⟨l, rfl⟩
    have e1 : ((2 * k / 2 : ℕ) : ℝ) - ((2 * k : ℕ) : ℝ) / 2 = 0 := by
      rw [show (2 * k / 2 : ℕ) = k from by omega]
      push_cast
      ring
    have e2 : ((2 * l / 2 : ℕ) : ℝ) - ((2 * l : ℕ) : ℝ) / 2 = 0 := by
      rw [show (2 * l / 2 : ℕ) = l from by omega]
      push_cast
      ring
    simp [gradient_t, e1, e2]
  · have e0 : ((0 : ℕ) : ℝ) = 0 := Nat.cast_zero
    have hnum : (((0 : ℕ) : ℝ) - (w : ℝ) / 2) * (((0 : ℕ) : ℝ) - (w : ℝ) / 2) +
        (((0 : ℕ) : ℝ) - (h : ℝ) / 2) * (((0 : ℕ) : ℝ) - (h : ℝ) / 2) =
        (w : ℝ) / 2 * ((w : ℝ) / 2) + (h : ℝ) / 2 * ((h : ℝ) / 2) := by
      push_cast
      ring
    have hpos : (0 : ℝ) < (w : ℝ) / 2 * ((w : ℝ) / 2) + (h : ℝ) / 2 * ((h : ℝ) / 2) := by
      have hcx : (0 : ℝ) < (w : ℝ) / 2 := div_pos (Nat.cast_pos.2 hw) two_pos
      exact add_pos_of_pos_of_nonneg (mul_pos hcx hcx) (mul_self_nonneg _)
    have hs : Real.sqrt ((w : ℝ) / 2 * ((w : ℝ) / 2) + (h : ℝ) / 2 * ((h : ℝ) / 2)) ≠ 0 :=
      (Real.sqrt_pos.2 hpos).ne'
    simp only [gradient_t]
    rw [hnum, div_self hs]
    exact min_self 1
  · simp only [interpolate_rgb, lerp, f32_as_u8_real]
    norm_num
    decide

/-- Witness for C4: the gradient extremes at the concrete canvas
`2 × 2` — `t = 1` at `x = width` for the horizontal mode and `t = 0`
at the center for the radial mode — via the extremes theorem with its
hypotheses discharged there. -/
theorem c4_gradient_extremes_witness :
    gradient_t .Horizontal 2 0 2 2 = 1 ∧ gradient_t .Radial 1 1 2 2 = 0 := by
  have h := c4_gradient_extremes 2 2 0 0 (by norm_num) (by norm_num)
  exact ⟨h.2.1, h.2.2.2.2.2.2.1 ⟨1, rfl⟩ ⟨1, rfl⟩⟩

/-! ## Claim C3: circle module rasterization -/

/-- Color used in the C3 counterexample. -/
def c3_color : Rgba := ⟨0, 0, 0, 255⟩

/-- C3 counterexample: for the even module size `S = 2` anchored at the
origin of a 10×10 buffer, `draw_circle` fills pixel `(1, 0)` but not
pixel `(0, 0)`, its mirror image across the vertical axis through the
region's center `x = 1` — so the filled pixel set is not symmetric about
the axes through the center, refuting the claimed symmetry for even `S`. -/
theorem c3_counterexample :
    (((1, 0), c3_color) ∈ draw_circle 10 10 0 0 2 c3_color) ∧
    (((0, 0), c3_color) ∉ draw_circle 10 10 0 0 2 c3_color) := by decide

/-- C3 (amended): `draw_circle` on an `S × S` region anchored at
`(x, y)` fills exactly the in-bounds pixels `(x+dx, y+dy)` whose
integer coordinate lies within Euclidean distance `S/2` of the region's
center `(x + S/2, y + S/2)` — the distance is measured at the pixel's
integer (top-left) coordinate, which makes the filled set asymmetric
about the center axes (biased toward the bottom-right) rather than
symmetric. -/
theorem c3_circle_fill (w h x y size : ℕ) (c : Rgba) (p : ℕ × ℕ) (col : Rgba) :
    (p, col) ∈ draw_circle w h x y size c ↔
      ∃ dx dy, dx < size ∧ dy < size ∧ p = (x + dx, y + dy) ∧ col = c ∧
        (((x + dx : ℕ) : ℚ) - ((x : ℚ) + (size : ℚ) / 2)) ^ 2 +
          (((y + dy : ℕ) : ℚ) - ((y : ℚ) + (size : ℚ) / 2)) ^ 2 ≤ ((size : ℚ) / 2) ^ 2 ∧
        x + dx < w ∧ y + dy < h := by
  have key : ∀ dx dy : ℕ,
      ((2 * (dx : ℤ) - size) ^ 2 + (2 * (dy : ℤ) - size) ^ 2 ≤ (size : ℤ) ^ 2) ↔
        (((x + dx : ℕ) : ℚ) - ((x : ℚ) + (size : ℚ) / 2)) ^ 2 +
          (((y + dy : ℕ) : ℚ) - ((y : ℚ) + (size : ℚ) / 2)) ^ 2 ≤ ((size : ℚ) / 2) ^ 2 := by
    intro dx dy
    have hx : (((x + dx : ℕ) : ℚ) - ((x : ℚ) + (size : ℚ) / 2)) = (dx : ℚ) - (size : ℚ) / 2 := by
      push_cast
      ring
    have hy' : (((y + dy : ℕ) : ℚ) - ((y : ℚ) + (size : ℚ) / 2)) = (dy : ℚ) - (size : ℚ) / 2 := by
      push_cast
      ring
    rw [hx, hy', ← Int.cast_le (R := ℚ)]
    push_cast
    constructor <;> intro hc <;> nlinarith [hc]
  simp only [draw_circle, List.mem_flatMap, List.mem_filterMap, List.mem_range,
    Option.ite_none_right_eq_some, Option.some.injEq, Prod.mk.injEq]
  constructor
  · rintro ⟨dy, hdy, dx, hdx, ⟨hcond, hxw, hyh⟩, hp, hc⟩
    exact ⟨dx, dy, hdx, hdy, hp.symm, hc.symm, (key dx dy).1 hcond, hxw, hyh⟩
  · rintro ⟨dx, dy, hdx, hdy, hp, hc, hcond, hxw, hyh⟩
    exact ⟨dy, hdy, dx, hdx, ⟨(key dx dy).2 hcond, hxw, hyh⟩, hp.symm, hc.symm⟩

/-! ## Region and bounds lemmas for the shape rasterizers -/

/-- Every write of `draw_square` stays inside the module region and the
buffer bounds. -/
lemma draw_square_mem (w h x y size : ℕ) (c : Rgba) (p : ℕ × ℕ) (col : Rgba)
    (hmem : (p, col) ∈ draw_square w h x y size c) :
    x ≤ p.1 ∧ p.1 < x + size ∧ y ≤ p.2 ∧ p.2 < y + size ∧ p.1 < w ∧ p.2 < h := by
  simp only [draw_square, List.mem_flatMap, List.mem_filterMap, List.mem_range,
    Option.ite_none_right_eq_some, Option.some.injEq, Prod.mk.injEq] at hmem
  obtain ⟨dy, hdy, dx, hdx, ⟨hxw, hyh⟩, hp, hc⟩ := hmem
  subst hp
  refine ⟨?_, ?_, ?_, ?_, hxw, hyh⟩ <;> simp <;> omega

/-- Every write of `draw_circle` stays inside the module region and the
buffer bounds. -/
lemma draw_circle_mem (w h x y size : ℕ) (c : Rgba) (p : ℕ × ℕ) (col : Rgba)
    (hmem : (p, col) ∈ draw_circle w h x y size c) :
    x ≤ p.1 ∧ p.1 < x + size ∧ y ≤ p.2 ∧ p.2 < y + size ∧ p.1 < w ∧ p.2 < h := by
  simp only [draw_circle, List.mem_flatMap, List.mem_filterMap, List.mem_range,
    Option.ite_none_right_eq_some, Option.some.injEq, Prod.mk.injEq] at hmem
  obtain ⟨dy, hdy, dx, hdx, ⟨hcond, hxw, hyh⟩, hp, hc⟩ := hmem
  subst hp
  refine ⟨?_, ?_, ?_, ?_, hxw, hyh⟩ <;> simp <;> omega

/-- Every write of `draw_rounded_square` stays inside the module region
and the buffer bounds. -/
lemma draw_rounded_square_mem (w h x y size : ℕ) (c : Rgba) (app : QrCodeApp)
    (p : ℕ × ℕ) (col : Rgba)
    (hmem : (p, col) ∈ draw_rounded_square w h x y size c app) :
    x ≤ p.1 ∧ p.1 < x + size ∧ y ≤ p.2 ∧ p.2 < y + size ∧ p.1 < w ∧ p.2 < h := by
  simp only [draw_rounded_square, List.mem_flatMap, List.mem_filterMap, List.mem_range] at hmem
  obtain ⟨dy, hdy, dx, hdx, hf⟩ := hmem
  split at hf
  · rw [Option.ite_none_right_eq_some, Option.some.injEq] at hf
    obtain ⟨⟨hcond, hxw, hyh⟩, hp⟩ := hf
    obtain ⟨hp, hc⟩ := Prod.mk.injEq .. ▸ hp
    subst hp
    refine ⟨?_, ?_, ?_, ?_, hxw, hyh⟩ <;> simp <;> omega
  · rw [Option.ite_none_right_eq_some, Option.some.injEq] at hf
    obtain ⟨⟨hxw, hyh⟩, hp⟩ := hf
    obtain ⟨hp, hc⟩ := Prod.mk.injEq .. ▸ hp
    subst hp
    refine ⟨?_, ?_, ?_, ?_, hxw, hyh⟩ <;> simp <;> omega

/-- Every write of `draw_dot` stays inside the module region and the
buffer bounds. -/
lemma draw_dot_mem (w h x y size : ℕ) (c : Rgba) (p : ℕ × ℕ) (col : Rgba)
    (hmem : (p, col) ∈ draw_dot w h x y size c) :
    x ≤ p.1 ∧ p.1 < x + size ∧ y ≤ p.2 ∧ p.2 < y + size ∧ p.1 < w ∧ p.2 < h := by
  simp only [draw_dot, List.mem_flatMap, List.mem_filterMap, List.mem_range,
    Option.ite_none_right_eq_some, Option.some.injEq, Prod.mk.injEq] at hmem
  obtain ⟨dy, hdy, dx, hdx, ⟨hcond, hxw, hyh⟩, hp, hc⟩ := hmem
  subst hp
  refine ⟨?_, ?_, ?_, ?_, hxw, hyh⟩ <;> simp <;> omega

/-! ## Claim C9: the four module fill operations clip to the buffer -/

/-- C9: for every anchor, size and color, each of the four module fill
operations — square, circle, rounded-square, dot — writes only to
pixel coordinates strictly inside the buffer's width and height, even
when the module region extends past the buffer edge. -/
theorem c9_draws_clip (w h x y size : ℕ) (c : Rgba) (app : QrCodeApp) :
    (∀ p col, (p, col) ∈ draw_square w h x y size c → p.1 < w ∧ p.2 < h) ∧
    (∀ p col, (p, col) ∈ draw_circle w h x y size c → p.1 < w ∧ p.2 < h) ∧
    (∀ p col, (p, col) ∈ draw_rounded_square w h x y size c app → p.1 < w ∧ p.2 < h) ∧
    (∀ p col, (p, col) ∈ draw_dot w h x y size c → p.1 < w ∧ p.2 < h) := by
  refine ⟨fun p col hmem => ?_, fun p col hmem => ?_, fun p col hmem => ?_,
    fun p col hmem => ?_⟩
  · have hb := draw_square_mem w h x y size c p col hmem
    exact ⟨hb.2.2.2.2.1, hb.2.2.2.2.2⟩
  · have hb := draw_circle_mem w h x y size c p col hmem
    exact ⟨hb.2.2.2.2.1, hb.2.2.2.2.2⟩
  · have hb := draw_rounded_square_mem w h x y size c app p col hmem
    exact ⟨hb.2.2.2.2.1, hb.2.2.2.2.2⟩
  · have hb := draw_dot_mem w h x y size c p col hmem
    exact ⟨hb.2.2.2.2.1, hb.2.2.2.2.2⟩

/-- Color used in the C9 witness. -/
def c9_color : Rgba := ⟨7, 7, 7, 255⟩

/-- Witness for C9: the clipping theorem applied to a concrete write of
`draw_square` on a 1×1 buffer (a 4×4 module at the origin, clipped), its
membership hypothesis discharged by evaluation. -/
theorem c9_draws_clip_witness : (0 : ℕ) < 1 ∧ (0 : ℕ) < 1 :=
  (c9_draws_clip 1 1 0 0 4 c9_color default_app).1 (0, 0) c9_color (by decide)

/-! ## Claim C8: flower eye style -/

/-- C8: in the flower eye style, a dark module at relative position
`(rel_x, rel_y)` in the 7×7 finder block is painted exactly when it is
on the outermost border (`rel_x ∈ {0,6}` or `rel_y ∈ {0,6}`) or in the
inner 3×3 block; painted modules use the circle shape when
`rel_x + rel_y` is even and the rounded-square shape when it is odd,
the rounded square drawn with `QrCodeApp::default()` whose radius is
the fixed `0.2` fraction; and the dispatch is independent of the user's
`use_rounded_corners` and `corner_radius` settings. -/
theorem c8_flower_eye (w h px py size : ℕ) (c : Rgba) (rel_x rel_y : ℕ) :
    (draw_eye_flower w h px py size c rel_x rel_y =
      if (rel_x = 0 ∨ rel_x = 6 ∨ rel_y = 0 ∨ rel_y = 6) ∨
         ((2 ≤ rel_x ∧ rel_x ≤ 4) ∧ (2 ≤ rel_y ∧ rel_y ≤ 4)) then
        (if (rel_x + rel_y) % 2 = 0 then draw_circle w h px py size c
         else draw_rounded_square w h px py size c default_app)
      else []) ∧
    rounded_square_radius default_app size = f32_as_u32 ((size : ℚ) * (1 / 5)) ∧
    (∀ app : QrCodeApp, ∀ b : Bool, ∀ r : ℚ, ∀ x y : ℕ, ∀ eyes : List (ℕ × ℕ),
      app.eye_style = .Flower →
      draw_eye_module w h { app with use_rounded_corners := b, corner_radius := r }
          x y px py size eyes = draw_eye_module w h app x y px py size eyes) := by
  refine ⟨rfl, rfl, ?_⟩
  intro app b r x y eyes hstyle
  obtain ⟨t1, s1, b1, e1, fg1, bg1, ug1, gt1, gc1, ms1, urc1, cr1, es1, uec1, ec1, lp1, li1,
    ls1, bp1, bi1, bo1, qo1, st1, pt1, sm1, ff1⟩ := app
  have hes : es1 = EyeStyle.Flower := hstyle
  subst hes
  rfl

/-- Configuration with the flower eye style, for the C8 witness. -/
def c8_app : QrCodeApp := { default_app with eye_style := .Flower }

/-- Witness for C8: with the flower eye style, changing the user's
rounding settings (`use_rounded_corners := true`, `corner_radius := 0.9`)
does not change the eye rendering, by the flower theorem at a concrete
input with its hypothesis discharged there. -/
theorem c8_flower_eye_witness :
    draw_eye_module 100 100 { c8_app with use_rounded_corners := true, corner_radius := 9 / 10 }
        0 0 0 0 7 (eye_positions 21) =
      draw_eye_module 100 100 c8_app 0 0 0 0 7 (eye_positions 21) :=
  (c8_flower_eye 100 100 0 0 7 ⟨0, 0, 0, 255⟩ 0 0).2.2 c8_app true (9 / 10) 0 0
    (eye_positions 21) rfl

/-- Every write of `draw_eye_circle` stays inside the module region and
the buffer bounds. -/
lemma draw_eye_circle_mem (w h px py size : ℕ) (c : Rgba) (rx ry : ℕ)
    (p : ℕ × ℕ) (col : Rgba)
    (hmem : (p, col) ∈ draw_eye_circle w h px py size c rx ry) :
    px ≤ p.1 ∧ p.1 < px + size ∧ py ≤ p.2 ∧ p.2 < py + size ∧ p.1 < w ∧ p.2 < h := by
  unfold draw_eye_circle at hmem
  split at hmem
  · exact draw_circle_mem _ _ _ _ _ _ _ _ hmem
  · split at hmem
    · exact draw_circle_mem _ _ _ _ _ _ _ _ hmem
    · simp at hmem

/-- Every write of `draw_eye_flower` stays inside the module region and
the buffer bounds. -/
lemma draw_eye_flower_mem (w h px py size : ℕ) (c : Rgba) (rx ry : ℕ)
    (p : ℕ × ℕ) (col : Rgba)
    (hmem : (p, col) ∈ draw_eye_flower w h px py size c rx ry) :
    px ≤ p.1 ∧ p.1 < px + size ∧ py ≤ p.2 ∧ p.2 < py + size ∧ p.1 < w ∧ p.2 < h := by
  unfold draw_eye_flower at hmem
  split at hmem
  · split at hmem
    · exact draw_circle_mem _ _ _ _ _ _ _ _ hmem
    · exact draw_rounded_square_mem _ _ _ _ _ _ _ _ _ hmem
  · simp at hmem

/-- Every write of `draw_eye_diamond` stays inside the module region and
the buffer bounds. -/
lemma draw_eye_diamond_mem (w h px py size : ℕ) (c : Rgba) (rx ry : ℕ)
    (p : ℕ × ℕ) (col : Rgba)
    (hmem : (p, col) ∈ draw_eye_diamond w h px py size c rx ry) :
    px ≤ p.1 ∧ p.1 < px + size ∧ py ≤ p.2 ∧ p.2 < py + size ∧ p.1 < w ∧ p.2 < h := by
  simp only [draw_eye_diamond] at hmem
  split at hmem
  · exact draw_square_mem _ _ _ _ _ _ _ _ hmem
  · simp at hmem

/-- Every write of `draw_data_module` stays inside the module region and
the buffer bounds. -/
lemma draw_data_module_mem (w h : ℕ) (app : QrCodeApp) (px py size : ℕ)
    (p : ℕ × ℕ) (col : Rgba)
    (hmem : (p, col) ∈ draw_data_module w h app px py size) :
    px ≤ p.1 ∧ p.1 < px + size ∧ py ≤ p.2 ∧ p.2 < py + size ∧ p.1 < w ∧ p.2 < h := by
  obtain ⟨t1, s1, b1, e1, fg1, bg1, ug1, gt1, gc1, ms1, urc1, cr1, es1, uec1, ec1, lp1, li1,
    ls1, bp1, bi1, bo1, qo1, st1, pt1, sm1, ff1⟩ := app
  simp only [draw_data_module] at hmem
  cases ms1 with
  | Square => exact draw_square_mem _ _ _ _ _ _ _ _ hmem
  | Circle => exact draw_circle_mem _ _ _ _ _ _ _ _ hmem
  | RoundedSquare => exact draw_rounded_square_mem _ _ _ _ _ _ _ _ _ hmem
  | Dots => exact draw_dot_mem _ _ _ _ _ _ _ _ hmem

/-- Every write of `draw_eye_module` stays inside the module region and
the buffer bounds. -/
lemma draw_eye_module_mem (w h : ℕ) (app : QrCodeApp) (x y px py size : ℕ)
    (eyes : List (ℕ × ℕ)) (p : ℕ × ℕ) (col : Rgba)
    (hmem : (p, col) ∈ draw_eye_module w h app x y px py size eyes) :
    px ≤ p.1 ∧ p.1 < px + size ∧ py ≤ p.2 ∧ p.2 < py + size ∧ p.1 < w ∧ p.2 < h := by
  obtain ⟨t1, s1, b1, e1, fg1, bg1, ug1, gt1, gc1, ms1, urc1, cr1, es1, uec1, ec1, lp1, li1,
    ls1, bp1, bi1, bo1, qo1, st1, pt1, sm1, ff1⟩ := app
  simp only [draw_eye_module] at hmem
  revert hmem
  cases eyes.find? (fun q => decide (q.1 ≤ x ∧ x < q.1 + 7 ∧ q.2 ≤ y ∧ y < q.2 + 7)) with
  | none => intro hmem; simp at hmem
  | some q =>
      obtain ⟨ex, ey⟩ := q
      intro hmem
      cases es1 with
      | Standard => exact draw_square_mem _ _ _ _ _ _ _ _ hmem
      | Circle => exact draw_eye_circle_mem _ _ _ _ _ _ _ _ _ _ hmem
      | RoundedSquare => exact draw_rounded_square_mem _ _ _ _ _ _ _ _ _ hmem
      | Flower => exact draw_eye_flower_mem _ _ _ _ _ _ _ _ _ _ hmem
      | Diamond => exact draw_eye_diamond_mem _ _ _ _ _ _ _ _ _ _ hmem

/-- Every write of the module-drawing loop comes from a dark cell
`(r, c)` of the matrix and lies inside that module's pixel region,
anchored at `(off + c·ms, off + r·ms)`. -/
lemma module_writes_mem (app : QrCodeApp) (matrix : ℕ → Bool) (qrw ms off w h : ℕ)
    (p : ℕ × ℕ) (col : Rgba)
    (hmem : (p, col) ∈ module_writes app matrix qrw ms off w h) :
    ∃ r c, r < qrw ∧ c < qrw ∧ matrix (r * qrw + c) = true ∧
      off + c * ms ≤ p.1 ∧ p.1 < off + c * ms + ms ∧
      off + r * ms ≤ p.2 ∧ p.2 < off + r * ms + ms := by
  simp only [module_writes, List.mem_flatMap, List.mem_range] at hmem
  obtain ⟨yy, hy, xx, hx, hmem⟩ := hmem
  refine ⟨yy, xx, hy, hx, ?_⟩
  revert hmem
  split
  · rename_i hdark
    intro hmem
    refine ⟨hdark, ?_⟩
    revert hmem
    split
    · intro hmem
      have hb := draw_eye_module_mem _ _ _ _ _ _ _ _ _ _ _ hmem
      exact ⟨hb.1, hb.2.1, hb.2.2.1, hb.2.2.2.1⟩
    · intro hmem
      have hb := draw_data_module_mem _ _ _ _ _ _ _ _ hmem
      exact ⟨hb.1, hb.2.1, hb.2.2.1, hb.2.2.2.1⟩
  · intro hmem
    simp at hmem

/-- A pixel hit by none of the writes keeps its value through
`apply_writes`. -/
lemma apply_writes_pix_eq (ws : List Write) (img : Image) (i j : ℕ)
    (h : ∀ q ∈ ws, q.1 ≠ (i, j)) :
    (apply_writes img ws).pix i j = img.pix i j := by
  induction ws generalizing img with
  | nil => rfl
  | cons wq tl ih =>
      have hne := h wq (List.mem_cons_self _ _)
      have step : (put_pixel img wq.1.1 wq.1.2 wq.2).pix i j = img.pix i j := by
        simp only [put_pixel]
        rw [if_neg (by rintro ⟨hi, hj⟩; exact hne (by rw [hi, hj]))]
      have htl : ∀ q ∈ tl, q.1 ≠ (i, j) := fun q hq => h q (List.mem_cons_of_mem _ hq)
      calc (apply_writes img (wq :: tl)).pix i j
          = (apply_writes (put_pixel img wq.1.1 wq.1.2 wq.2) tl).pix i j := rfl
        _ = (put_pixel img wq.1.1 wq.1.2 wq.2).pix i j := ih (put_pixel img wq.1.1 wq.1.2 wq.2) htl
        _ = img.pix i j := step

/-! ## Claim C10: only dark cells trigger pixel writes -/

/-- C10: during module rasterization only dark matrix cells produce
writes — every write lies inside the pixel region of some dark module —
so a pixel outside the regions of all dark modules retains exactly its
base-canvas value after the module-drawing loop (the logo overlay and
opacity pass run later). -/
theorem c10_light_cells_preserved (app : QrCodeApp) (matrix : ℕ → Bool)
    (qrw ms off w h : ℕ) (base : Image) (i j : ℕ)
    (hout : ∀ r c, r < qrw → c < qrw → matrix (r * qrw + c) = true →
      ¬(off + c * ms ≤ i ∧ i < off + c * ms + ms ∧
        off + r * ms ≤ j ∧ j < off + r * ms + ms)) :
    (apply_writes base (module_writes app matrix qrw ms off w h)).pix i j = base.pix i j := by
  apply apply_writes_pix_eq
  intro q hq hqe
  obtain ⟨r, c, hr, hc, hdark, h1, h2, h3, h4⟩ :=
    module_writes_mem app matrix qrw ms off w h q.1 q.2 hq
  have hi : q.1.1 = i := by rw [hqe]
  have hj : q.1.2 = j := by rw [hqe]
  refine hout r c hr hc hdark ⟨?_, ?_, ?_, ?_⟩ <;> omega

/-- Base canvas for the C10 witness. -/
def c10_base : Image := ⟨10, 10, fun _ _ => ⟨200, 200, 200, 255⟩⟩

/-- Witness for C10: a 1×1 all-dark matrix drawn with module size 1 and
no border leaves the pixel `(5, 5)` — outside the single dark module's
region — at its base value, by the preservation theorem with its
hypothesis discharged at that concrete input. -/
theorem c10_light_cells_preserved_witness :
    (apply_writes c10_base (module_writes default_app (fun _ => true) 1 1 0 10 10)).pix 5 5 =
      c10_base.pix 5 5 :=
  c10_light_cells_preserved default_app (fun _ => true) 1 1 0 10 10 c10_base 5 5
    (by intro r c hr hc _; omega)

/-! ## Claim C7: layout arithmetic -/

/-- C7: the layout computes
`module_pixel_size = floor((size − 2·border·floor(size/count)) / count)`,
`canvas_size = module_pixel_size·count + 2·border·module_pixel_size`
(a multiple of `module_pixel_size`, not always equal to the requested
size — e.g. 475 ≠ 512 at the defaults), `border_offset = border ·
module_pixel_size`, and every write of the dark module at row `r`,
column `c` lands in the region anchored at
`(border_offset + c·module_pixel_size, border_offset + r·module_pixel_size)`.
The hypotheses `21 ≤ n` (QR module counts are ≥ 21) and `b ≤ 10` (the
UI's border range) rule out `u32` underflow in the source subtraction. -/
theorem c7_layout (s b n : ℕ) (hn : 21 ≤ n) (hb : b ≤ 10) :
    (qr_module_size s b n : ℤ) =
      ⌊((s : ℚ) - 2 * (b : ℚ) * (⌊(s : ℚ) / (n : ℚ)⌋ : ℚ)) / (n : ℚ)⌋ ∧
    qr_total_size s b n = qr_module_size s b n * n + 2 * b * qr_module_size s b n ∧
    (∃ k, qr_total_size s b n = k * qr_module_size s b n) ∧
    qr_border_offset s b n = b * qr_module_size s b n ∧
    qr_total_size 512 2 21 ≠ 512 ∧
    (∀ (app : QrCodeApp) (matrix : ℕ → Bool) (w h : ℕ) (p : ℕ × ℕ) (col : Rgba),
      (p, col) ∈ module_writes app matrix n (qr_module_size s b n) (qr_border_offset s b n) w h →
      ∃ r c, r < n ∧ c < n ∧ matrix (r * n + c) = true ∧
        qr_border_offset s b n + c * qr_module_size s b n ≤ p.1 ∧
        p.1 < qr_border_offset s b n + c * qr_module_size s b n + qr_module_size s b n ∧
        qr_border_offset s b n + r * qr_module_size s b n ≤ p.2 ∧
        p.2 < qr_border_offset s b n + r * qr_module_size s b n + qr_module_size s b n) := by
  have hfl : ∀ a bb : ℕ, ⌊(a : ℚ) / (bb : ℚ)⌋ = ((a / bb : ℕ) : ℤ) := by
    intro a bb
    rw [show ((a : ℚ)) = (((a : ℤ)) : ℚ) from by push_cast; rfl,
      Rat.floor_intCast_div_natCast]
    exact_mod_cast rfl
  have hle : 2 * b * (s / n) ≤ s := by
    obtain ⟨k, hk⟩ : ∃ k, s / n = k := ⟨_, rfl⟩
    have hkn : k * n ≤ s := hk ▸ Nat.div_mul_le_self s n
    rw [hk]
    calc 2 * b * k ≤ 21 * k := Nat.mul_le_mul_right k (by omega)
      _ ≤ n * k := Nat.mul_le_mul_right k hn
      _ = k * n := Nat.mul_comm n k
      _ ≤ s := hkn
  refine ⟨?_, rfl, ⟨n + 2 * b, ?_⟩, rfl, by decide, ?_⟩
  · rw [hfl s n]
    have hnum : ((s : ℚ) - 2 * (b : ℚ) * ((((s / n : ℕ) : ℤ)) : ℚ)) =
        (((s - 2 * b * (s / n) : ℕ)) : ℚ) := by
      rw [Nat.cast_sub hle, Int.cast_natCast]
      push_cast
      ring
    rw [hnum, hfl]
    rfl
  · unfold qr_total_size qr_actual_size
    ring
  · intro app matrix w h p col hmem
    exact module_writes_mem app matrix n _ _ w h p col hmem

/-- Witness for C7: the layout theorem at `size = 512`, `border = 2`,
`module_count = 21` (the app defaults), its range hypotheses discharged
there: the module size satisfies the floor formula and the canvas size
(475) differs from the requested 512. -/
theorem c7_layout_witness :
    (qr_module_size 512 2 21 : ℤ) =
      ⌊(((512 : ℕ) : ℚ) - 2 * ((2 : ℕ) : ℚ) * (⌊((512 : ℕ) : ℚ) / ((21 : ℕ) : ℚ)⌋ : ℚ)) /
        ((21 : ℕ) : ℚ)⌋ ∧
    qr_total_size 512 2 21 ≠ 512 := by
  have h := c7_layout 512 2 21 (by norm_num) (by norm_num)
  exact ⟨h.1, h.2.2.2.2.1⟩

/-! ## Claim C1: no sizing check in generate_qr_image -/

/-- A configuration whose computed module pixel size is 0:
the default configuration with `size := 20` and `border := 0`
(`floor(20/21) = 0`), no logo, no background image. -/
def c1_app : QrCodeApp := { default_app with size := 20, border := 0 }

/-- C1 counterexample: at a configuration whose computed module pixel
size is 0 (size 20, border 0, 21 modules) and with no logo configured,
`generate_qr_image` does NOT fail with a sizing error — it returns
`Ok` (with an empty 0×0 canvas), refuting the claim that every
zero-module-size configuration is rejected. -/
theorem c1_counterexample :
    qr_module_size c1_app.size c1_app.border 21 = 0 ∧
    c1_app.logo_image = none ∧
    ∃ img, generate_qr_image c1_app (fun _ => true) 21 = .ok img :=
  ⟨rfl, rfl, ⟨_, rfl⟩⟩

/-- `apply_writes` does not change the buffer width. -/
lemma apply_writes_width (ws : List Write) (img : Image) :
    (apply_writes img ws).width = img.width := by
  induction ws generalizing img with
  | nil => rfl
  | cons wq tl ih => exact ih (put_pixel img wq.1.1 wq.1.2 wq.2)

/-- `apply_writes` does not change the buffer height. -/
lemma apply_writes_height (ws : List Write) (img : Image) :
    (apply_writes img ws).height = img.height := by
  induction ws generalizing img with
  | nil => rfl
  | cons wq tl ih => exact ih (put_pixel img wq.1.1 wq.1.2 wq.2)

/-- The opacity pass does not change the buffer width. -/
lemma opacity_pass_width (img : Image) (op : ℚ) (bg : Rgb) :
    (opacity_pass img op bg).width = img.width := by
  unfold opacity_pass
  split <;> rfl

/-- The opacity pass does not change the buffer height. -/
lemma opacity_pass_height (img : Image) (op : ℚ) (bg : Rgb) :
    (opacity_pass img op bg).height = img.height := by
  unfold opacity_pass
  split <;> rfl

/-- C1 (amended): `generate_qr_image` performs no module-size
validation.  When no logo is configured it always returns `Ok` with a
canvas of side `total_size` — in particular a 0×0 buffer when the
computed module pixel size is 0 — and when a logo is configured and the
module pixel size is 0 the failure it reports is the logo-overlay size
check ("Logo size too small to render"), not a sizing error of the
layout. -/
theorem c1_no_sizing_check (app : QrCodeApp) (matrix : ℕ → Bool) (qr_width : ℕ) :
    (app.logo_image = none →
      ∃ img, generate_qr_image app matrix qr_width = .ok img ∧
        img.width = qr_total_size app.size app.border qr_width ∧
        img.height = qr_total_size app.size app.border qr_width) ∧
    (∀ logo, app.logo_image = some logo →
      qr_module_size app.size app.border qr_width = 0 →
      generate_qr_image app matrix qr_width = .error "Logo size too small to render") := by
  constructor
  · intro hnone
    simp only [generate_qr_image, hnone]
    refine ⟨_, rfl, ?_, ?_⟩
    · rw [opacity_pass_width, apply_writes_width]
      cases app.bg_image <;> rfl
    · rw [opacity_pass_height, apply_writes_height]
      cases app.bg_image <;> rfl
  · intro logo hsome hms
    simp only [generate_qr_image, hsome, hms]
    unfold apply_logo_overlay
    simp [f32_as_u32]

/-- Witness for C1: the amended theorem applied at the concrete
zero-module-size configuration, its no-logo hypothesis discharged
there. -/
theorem c1_no_sizing_check_witness :
    ∃ img, generate_qr_image c1_app (fun _ => true) 21 = .ok img ∧
      img.width = qr_total_size c1_app.size c1_app.border 21 ∧
      img.height = qr_total_size c1_app.size c1_app.border 21 :=
  (c1_no_sizing_check c1_app (fun _ => true) 21).1 rfl

end QRtistry
